import Mathlib

/- Verification of the GuacBot EDH free-for-all tournament engine
   (repository file src/cogs/tournament.py).

   The embedding below is a shallow model of the tournament state machine:
   Python dataclasses become Lean structures, Python dicts become
   insertion-ordered association lists, and the imperative command
   handlers become pure functions returning `Except TErr Tournament`.
   `Player.points` is a Python float in the source, but every value the
   program ever stores in it is integral (an initial `0.0` plus integer
   point allocations), so it is modelled exactly by `Int`; timestamps are
   floats compared by exact arithmetic and are modelled by `Rat`.  Every
   definition is translated directly from the source file; comments point
   to the corresponding Python lines. -/

namespace GuacBot

/- Data model: dataclasses Player, Game, Round, Tournament
   (tournament.py lines 42-74). -/

structure Player where
  id : Int
  name : String
  points : Int
  matches_played : Int
deriving DecidableEq

structure Game where
  pod_number : Int
  players : List Int
  results_reported : Bool := false
  results : List (Int × Int) := []
deriving DecidableEq

structure Round where
  number : Int
  games : List Game := []
  active : Bool := true
  start_time : Option Rat := none
  notified_timeout : Bool := false
deriving DecidableEq

structure Tournament where
  id : String
  name : String
  host : Int
  players : List (Int × Player) := []
  rounds : List Round := []
  finished : Bool := false
  pod_size : Int := 4
  max_rounds : Int := 4
  time_limit : Int := 90
deriving DecidableEq

/- Python dict helpers.  A dict is modelled as an insertion-ordered
   association list; all dicts built by the program have unique keys. -/

/-- Python `d.get(k)` / `k in d`: first entry with the given key. -/
def pyGet {β : Type} : List (Int × β) → Int → Option β
  | [], _ => none
  | (k, v) :: rest, key => if k = key then some v else pyGet rest key

/-- Python `d[k] = v` inside a dict comprehension: update the value of an
existing key in place, otherwise append a fresh entry. -/
def dictInsert : List (Int × Int) → Int → Int → List (Int × Int)
  | [], k, v => [(k, v)]
  | (k', v') :: rest, k, v =>
      if k' = k then (k', v) :: rest else (k', v') :: dictInsert rest k v

/-- Python `del d[k]`: drop the (unique) entry with the given key; modelled
as first-match removal. -/
def dictDelete {β : Type} : List (Int × β) → Int → List (Int × β)
  | [], _ => []
  | (k, v) :: rest, key => if k = key then rest else (k, v) :: dictDelete rest key

/- Python list slicing, including negative indices, as used by
   `players[:pod_size]` and `players[pod_size:]` in make_pods. -/

/-- Python `l[:n]`: for `n ≥ 0` the first `n` elements, for `n < 0`
everything but the last `-n` elements (clamped at the empty list). -/
def pyTake {α : Type} (l : List α) (n : Int) : List α :=
  if 0 ≤ n then l.take n.toNat else l.take (l.length - (-n).toNat)

/-- Python `l[n:]`: for `n ≥ 0` everything from index `n` on, for `n < 0`
the last `-n` elements (clamped at the whole list). -/
def pyDrop {α : Type} (l : List α) (n : Int) : List α :=
  if 0 ≤ n then l.drop n.toNat else l.drop (l.length - (-n).toNat)

/-- Model of `get_point_allocation` (tournament.py lines 188-196): the points vector
for a pod of the given size. -/
def get_point_allocation (pod_len : Nat) : List Int :=
  if pod_len = 4 then [4, 3, 2, 1]
  else if pod_len = 3 then [4, 3, 2]
  else if pod_len = 2 then [3, 2]
  else [2]

/- `standings_list` (tournament.py lines 172-173):
   sorted(t.players.values(), key=lambda p: (-p.points, p.matches_played, p.name)).
   Python `sorted` is a stable sort on that lexicographic key; any stable
   sort with respect to this total preorder produces the same list, so it
   is modelled by `List.insertionSort`, which is stable. -/

/-- The sort key order of `standings_list`: points descending, then
matches_played ascending, then name ascending. -/
def playerKeyLe (a b : Player) : Prop :=
  b.points < a.points ∨
    (a.points = b.points ∧
      (a.matches_played < b.matches_played ∨
        (a.matches_played = b.matches_played ∧ a.name ≤ b.name)))

instance : DecidableRel playerKeyLe := fun a b => by
  unfold playerKeyLe; exact inferInstance

theorem playerKeyLe_total (a b : Player) : playerKeyLe a b ∨ playerKeyLe b a := by
  unfold playerKeyLe
  rcases lt_trichotomy a.points b.points with hp | hp | hp
  · exact Or.inr (Or.inl hp)
  · rcases lt_trichotomy a.matches_played b.matches_played with hm | hm | hm
    · exact Or.inl (Or.inr ⟨hp, Or.inl hm⟩)
    · rcases le_total a.name b.name with hn | hn
      · exact Or.inl (Or.inr ⟨hp, Or.inr ⟨hm, hn⟩⟩)
      · exact Or.inr (Or.inr ⟨hp.symm, Or.inr ⟨hm.symm, hn⟩⟩)
    · exact Or.inr (Or.inr ⟨hp.symm, Or.inl hm⟩)
  · exact Or.inl (Or.inl hp)

theorem playerKeyLe_trans (a b c : Player)
    (hab : playerKeyLe a b) (hbc : playerKeyLe b c) : playerKeyLe a c := by
  unfold playerKeyLe at hab hbc ⊢
  rcases hab with h1 | ⟨e1, h1⟩
  · rcases hbc with h2 | ⟨e2, h2⟩
    · exact Or.inl (lt_trans h2 h1)
    · exact Or.inl (e2 ▸ h1)
  · rcases hbc with h2 | ⟨e2, h2⟩
    · exact Or.inl (lt_of_lt_of_le h2 (le_of_eq e1.symm))
    · refine Or.inr ⟨e1.trans e2, ?_⟩
      rcases h1 with h1 | ⟨m1, h1⟩
      · rcases h2 with h2 | ⟨m2, h2⟩
        · exact Or.inl (lt_trans h1 h2)
        · exact Or.inl (m2 ▸ h1)
      · rcases h2 with h2 | ⟨m2, h2⟩
        · exact Or.inl (m1 ▸ h2)
        · exact Or.inr ⟨m1.trans m2, le_trans h1 h2⟩

instance : IsTotal Player playerKeyLe := ⟨playerKeyLe_total⟩
instance : IsTrans Player playerKeyLe := ⟨playerKeyLe_trans⟩

/-- Model of `standings_list` (tournament.py lines 172-173). -/
def standings_list (t : Tournament) : List Player :=
  List.insertionSort playerKeyLe (t.players.map Prod.snd)

/- `make_pods` (tournament.py lines 175-186).  The `while players:` loop is
   modelled with an explicit step budget (`fuel`); `none` means the loop
   has not finished within that many iterations, and a result that is
   `none` for every budget models non-termination.  The random shuffle is
   modelled by taking the already-shuffled player list as an argument. -/

def makePodsLoop (fuel : Nat) (players : List Int) (pod_size : Int)
    (pod_number : Int) (pods : List Game) : Option (List Game) :=
  if players.isEmpty then some pods
  else
    match fuel with
    | 0 => none
    | fuel' + 1 =>
        makePodsLoop fuel' (pyDrop players pod_size) pod_size (pod_number + 1)
          (pods ++ [{ pod_number := pod_number, players := pyTake players pod_size }])

def make_pods (fuel : Nat) (shuffled : List Int) (pod_size : Int) : Option (List Game) :=
  makePodsLoop fuel shuffled pod_size 1 []

/- Command handlers.  The surrounding platform plumbing (interaction
   object, message sending) is excluded by the spec; each handler becomes
   a pure function on the Tournament aggregate returning either the
   descriptive error it replies with or the mutated aggregate.  The
   `tournament not found` lookup happens one level up (in the registry)
   and is common to every handler, so it is not repeated here. -/

inductive TErr where
  | noRounds
  | roundEnded
  | podNotFound
  | alreadyReported
  | alreadyFinished
  | alreadyRegistered
  | needTwoPlayers
  | roundActive
  | notRegistered
  | unauthorized
  | diverges
deriving DecidableEq

/-- Model of `create_tournament` (tournament.py lines 205-213): builds the
dataclass with the given configuration; no validation of `pod_size`,
`max_rounds`, or `time_limit` is performed. -/
def create_tournament (tid tname : String) (host : Int)
    (pod_size max_rounds time_limit : Int) : Tournament :=
  { id := tid, name := tname, host := host, players := [], rounds := [],
    finished := false, pod_size := pod_size, max_rounds := max_rounds,
    time_limit := time_limit }

/-- Model of `register` (tournament.py lines 215-228). -/
def register (t : Tournament) (pid : Int) (username : String) : Except TErr Tournament :=
  if t.finished then .error .alreadyFinished
  else if (pyGet t.players pid).isSome then .error .alreadyRegistered
  else .ok { t with players := t.players ++
      [(pid, { id := pid, name := username, points := 0, matches_played := 0 })] }

/-- Model of `start_round` (tournament.py lines 230-252).  The caller supplies the
post-shuffle ordering of the registered player identifiers; `.diverges`
marks the case where the `make_pods` loop would never return (only
possible for `pod_size ≤ 0`, see `makePodsLoop_diverges`). -/
def start_round (t : Tournament) (shuffled : List Int) (now : Rat) :
    Except TErr Tournament :=
  if t.finished then .error .alreadyFinished
  else if t.players.length < 2 then .error .needTwoPlayers
  else if t.rounds.any (·.active) then .error .roundActive
  else
    match make_pods (shuffled.length + 1) shuffled t.pod_size with
    | none => .error .diverges
    | some pods =>
        .ok { t with rounds := t.rounds ++
          [{ number := (t.rounds.length : Int) + 1, games := pods, active := true,
             start_time := some now, notified_timeout := false }] }

/-- Model of `next(g for g in r.games if g.pod_number == pod_number)`
(tournament.py line 265): first pod with the given number. -/
def findPod : List Game → Int → Option Game
  | [], _ => none
  | g :: rest, pn => if g.pod_number = pn then some g else findPod rest pn

/-- In-place mutation of the pod found by `findPod`: replace the first pod
with the given number. -/
def replaceFirstPod : List Game → Int → Game → List Game
  | [], _, _ => []
  | g :: rest, pn, g' => if g.pod_number = pn then g' :: rest else g :: replaceFirstPod rest pn g'

/-- The `for pid, pts in game.results.items()` loop (tournament.py lines
274-278): `t.players.get(pid)` and, when the player is registered,
`points += pts; matches_played += 1`.  Keys are unique in every dict the
program builds, so first-match update models the dict mutation exactly. -/
def awardPoints : List (Int × Player) → Int → Int → List (Int × Player)
  | [], _, _ => []
  | (k, p) :: rest, pid, pts =>
      if k = pid then
        (k, { p with points := p.points + pts,
                     matches_played := p.matches_played + 1 }) :: rest
      else (k, p) :: awardPoints rest pid pts

/-- The pod mutation of `report_game` (tournament.py lines 270-273):
`game.results = {pid: pts for pid, pts in zip(pod_players, points_list)}`
(a dict comprehension: first-occurrence position, last value wins on
duplicate keys) and `game.results_reported = True`. -/
def reportedGame (game : Game) (pod_players : List Int) : Game :=
  { game with
    results := (pod_players.zip (get_point_allocation pod_players.length)).foldl
      (fun m kv => dictInsert m kv.1 kv.2) [],
    results_reported := true }

/-- The mutation part of `report_game` (tournament.py lines 270-284), after
all guards have passed: build the results dict, mark the pod reported,
award points to registered players, and close the round when every pod of
the (latest) round has reported. -/
def reportApply (t : Tournament) (r : Round) (game : Game) (pod_number : Int)
    (pod_players : List Int) : Tournament :=
  let game' := reportedGame game pod_players
  let games' := replaceFirstPod r.games pod_number game'
  let r' := { r with games := games',
                     active := if games'.all (·.results_reported) then false else r.active }
  { t with players := game'.results.foldl (fun ps kv => awardPoints ps kv.1 kv.2) t.players,
           rounds := t.rounds.dropLast ++ [r'] }

/-- Model of `report_game` (tournament.py lines 254-284).  `first` and `second` are
required command arguments, `third`/`fourth` optional, so the reported
ranking always has 2-4 entries; the guards run in source order on the
latest round (`t.rounds[-1]`). -/
def report_game (t : Tournament) (pod_number : Int) (first second : Int)
    (third fourth : Option Int) : Except TErr Tournament :=
  match t.rounds.getLast? with
  | none => .error .noRounds
  | some r =>
    if r.active = false then .error .roundEnded
    else
      match findPod r.games pod_number with
      | none => .error .podNotFound
      | some game =>
        if game.results_reported then .error .alreadyReported
        else .ok (reportApply t r game pod_number
            ([first, second] ++ third.toList ++ fourth.toList))

/-- Per-game effect of `disqualify` (tournament.py lines 347-352):
`game.players.remove(pid)` removes the first occurrence, and a pod whose
membership drops below 2 without having reported is force-closed. -/
def dqGame (pid : Int) (g : Game) : Game :=
  if pid ∈ g.players then
    { g with players := g.players.erase pid,
             results_reported :=
               if (g.players.erase pid).length < 2 ∧ g.results_reported = false then true
               else g.results_reported }
  else g

/-- Model of `disqualify` (tournament.py lines 334-354).  `isAdmin` stands for the
platform's `guild_permissions.administrator` oracle. -/
def disqualify (t : Tournament) (actor : Int) (isAdmin : Bool) (pid : Int) :
    Except TErr Tournament :=
  if actor ≠ t.host ∧ isAdmin = false then .error .unauthorized
  else if (pyGet t.players pid).isNone then .error .notRegistered
  else .ok { t with
    players := dictDelete t.players pid,
    rounds := t.rounds.map (fun r => { r with games := r.games.map (dqGame pid) }) }

/-- Model of `end_tournament` (tournament.py lines 373-384). -/
def end_tournament (t : Tournament) (actor : Int) (isAdmin : Bool) :
    Except TErr Tournament :=
  if actor ≠ t.host ∧ isAdmin = false then .error .unauthorized
  else .ok { t with finished := true }

/-- One round's share of a `check_round_timeouts` sweep (tournament.py
lines 399-406): the state mutation is exactly setting `notified_timeout`
when the round is active, has a start time, is not yet flagged, and has
exceeded the limit.  (Python truthiness of `r.start_time` is modelled by
the `Option`; `time.time()` is never `0.0`.) -/
def sweepRound (time_limit : Int) (now : Rat) (r : Round) : Round :=
  match r.start_time with
  | none => r
  | some st =>
      if r.active = true ∧ r.notified_timeout = false ∧
          (now - st) / 60 > (time_limit : Rat)
      then { r with notified_timeout := true }
      else r

/-- The watchdog's state effect on one tournament during one sweep. -/
def watchdog_sweep (t : Tournament) (now : Rat) : Tournament :=
  { t with rounds := t.rounds.map (sweepRound t.time_limit now) }

/- Operation alphabet over one tournament, used to express invariants over
   every state reachable from `create_tournament`.  A handler that returns
   an error replies with a message and leaves the aggregate untouched
   (every mutation in the source happens after its guards), and a
   diverging `make_pods` call produces no successor state at all, so
   `applyOp` keeps the current state in both cases. -/

inductive Op where
  | register (pid : Int) (username : String)
  | startRound (shuffled : List Int) (now : Rat)
  | report (pod_number first second : Int) (third fourth : Option Int)
  | dq (actor : Int) (isAdmin : Bool) (pid : Int)
  | endT (actor : Int) (isAdmin : Bool)
  | watchdog (now : Rat)

def stepExcept (t : Tournament) : Op → Except TErr Tournament
  | .register pid u => register t pid u
  | .startRound s now => start_round t s now
  | .report pn f s th fo => report_game t pn f s th fo
  | .dq a ad pid => disqualify t a ad pid
  | .endT a ad => end_tournament t a ad
  | .watchdog now => .ok (watchdog_sweep t now)

def applyOp (t : Tournament) (o : Op) : Tournament :=
  match stepExcept t o with
  | .ok t' => t'
  | .error _ => t

def runOps (t : Tournament) (ops : List Op) : Tournament :=
  ops.foldl applyOp t

/-- Number of rounds currently flagged active. -/
def activeCount (t : Tournament) : Nat :=
  t.rounds.countP (·.active)

/- Persistence layer: `save_all` (tournament.py lines 124-152) and
   `load_all` (lines 93-118).  The JSON value written per tournament is
   modelled by the typed records below, one per dict shape the code
   builds.  `asdict(g)` keeps all four Game fields.  (The JSON encoder
   additionally turns the Int keys of `results` into decimal strings and
   `load_all` never converts them back; the model keeps them as Ints,
   which is generous to any round-trip claim.) -/

structure SavedPlayer where
  id : Int
  name : String
  points : Int
  matches_played : Int
deriving DecidableEq

structure SavedGame where
  pod_number : Int
  players : List Int
  results_reported : Bool
  results : List (Int × Int)
deriving DecidableEq

structure SavedRound where
  number : Int
  games : List SavedGame
  active : Bool
deriving DecidableEq

structure SavedTournament where
  id : String
  name : String
  host : Int
  players : List (String × SavedPlayer)
  rounds : List SavedRound
  finished : Bool
  pod_size : Int
  max_rounds : Int
  time_limit : Int
deriving DecidableEq

/-- Python `int(s)` restricted to the canonical decimal strings that
`str(pid)` produces (an optional leading minus sign followed by digits);
`load_all` only ever applies it to such keys. -/
def digitsToNat : List Char → Nat → Nat
  | [], acc => acc
  | c :: rest, acc => digitsToNat rest (acc * 10 + (c.toNat - 48))

def pyIntOfString (s : String) : Int :=
  match s.data with
  | '-' :: rest => -(digitsToNat rest 0 : Int)
  | l => (digitsToNat l 0 : Int)

/-- Model of `asdict(g)` inside `save_all` (line 140). -/
def save_game (g : Game) : SavedGame :=
  { pod_number := g.pod_number, players := g.players,
    results_reported := g.results_reported, results := g.results }

/-- The round dict built by `save_all` (lines 138-142): only `number`,
`games` and `active` are written; `start_time` and `notified_timeout` are
not serialized. -/
def save_round (r : Round) : SavedRound :=
  { number := r.number, games := r.games.map save_game, active := r.active }

/-- The tournament dict built by `save_all` (lines 127-148); player keys
are written as `str(pid)`. -/
def save_tournament (t : Tournament) : SavedTournament :=
  { id := t.id, name := t.name, host := t.host,
    players := t.players.map (fun e =>
      (toString e.1,
        { id := e.2.id, name := e.2.name, points := e.2.points,
          matches_played := e.2.matches_played : SavedPlayer })),
    rounds := t.rounds.map save_round,
    finished := t.finished, pod_size := t.pod_size,
    max_rounds := t.max_rounds, time_limit := t.time_limit }

/-- Model of `save_all` over the registry (lines 124-152). -/
def save_all (data : List (String × Tournament)) : List (String × SavedTournament) :=
  data.map (fun e => (e.1, save_tournament e.2))

/-- Model of `Game(**g)` inside `load_all` (line 105). -/
def load_game (g : SavedGame) : Game :=
  { pod_number := g.pod_number, players := g.players,
    results_reported := g.results_reported, results := g.results }

/-- The round rebuilt by `load_all` (line 106): only `number`, `games` and
`active` are passed, so `start_time` and `notified_timeout` take their
dataclass defaults `None` and `False`. -/
def load_round (r : SavedRound) : Round :=
  { number := r.number, games := r.games.map load_game, active := r.active,
    start_time := none, notified_timeout := false }

/-- The tournament rebuilt by `load_all` (lines 98-117); `int(pid)` parses
the stringified key back, and the defensive key filter on player dicts is
the identity on the typed record. -/
def load_tournament (t : SavedTournament) : Tournament :=
  { id := t.id, name := t.name, host := t.host,
    players := t.players.map (fun e =>
      (pyIntOfString e.1,
        { id := e.2.id, name := e.2.name, points := e.2.points,
          matches_played := e.2.matches_played : Player })),
    rounds := t.rounds.map load_round,
    finished := t.finished, pod_size := t.pod_size,
    max_rounds := t.max_rounds, time_limit := t.time_limit }

/-- Model of `load_all` over the persisted registry (lines 93-118). -/
def load_all (raw : List (String × SavedTournament)) : List (String × Tournament) :=
  raw.map (fun e => (e.1, load_tournament e.2))

end GuacBot

deriving instance DecidableEq for Except

namespace GuacBot

/- Inversion lemmas: recover the guard facts from a successful handler
   call. -/

theorem report_game_ok {t t' : Tournament} {pn f s : Int} {th fo : Option Int}
    (h : report_game t pn f s th fo = .ok t') :
    ∃ r game, t.rounds.getLast? = some r ∧ r.active = true ∧
      findPod r.games pn = some game ∧ game.results_reported = false ∧
      t' = reportApply t r game pn ([f, s] ++ th.toList ++ fo.toList) := by
  unfold report_game at h
  split at h
  · simp at h
  next r hr =>
    split at h
    · simp at h
    next ha =>
      split at h
      · simp at h
      next game hg =>
        split at h
        · simp at h
        next hrep =>
          simp only [Except.ok.injEq] at h
          exact ⟨r, game, hr, by simpa using ha, hg, by simpa using hrep, h.symm⟩

theorem register_ok {t t' : Tournament} {pid : Int} {u : String}
    (h : register t pid u = .ok t') :
    t' = { t with players := t.players ++
        [(pid, { id := pid, name := u, points := 0, matches_played := 0 })] } := by
  unfold register at h
  by_cases h1 : t.finished
  · rw [if_pos h1] at h; exact absurd h (by simp)
  · rw [if_neg h1] at h
    by_cases h2 : (pyGet t.players pid).isSome
    · rw [if_pos h2] at h; exact absurd h (by simp)
    · rw [if_neg h2] at h
      simp only [Except.ok.injEq] at h
      exact h.symm

theorem start_round_ok {t t' : Tournament} {sh : List Int} {now : Rat}
    (h : start_round t sh now = .ok t') :
    t.finished = false ∧ ¬ t.players.length < 2 ∧ t.rounds.any (·.active) = false ∧
    ∃ pods, make_pods (sh.length + 1) sh t.pod_size = some pods ∧
      t' = { t with rounds := t.rounds ++
        [{ number := (t.rounds.length : Int) + 1, games := pods, active := true,
           start_time := some now, notified_timeout := false }] } := by
  unfold start_round at h
  by_cases h1 : t.finished
  · rw [if_pos h1] at h; exact absurd h (by simp)
  · rw [if_neg h1] at h
    by_cases h2 : t.players.length < 2
    · rw [if_pos h2] at h; exact absurd h (by simp)
    · rw [if_neg h2] at h
      by_cases h3 : t.rounds.any (·.active)
      · rw [if_pos h3] at h; exact absurd h (by simp)
      · rw [if_neg h3] at h
        cases hp : make_pods (sh.length + 1) sh t.pod_size with
        | none => rw [hp] at h; exact absurd h (by simp)
        | some pods =>
            rw [hp] at h
            simp only [Except.ok.injEq] at h
            exact ⟨by simpa using h1, h2, by simpa using h3, pods, rfl, h.symm⟩

theorem disqualify_ok {t t' : Tournament} {a : Int} {ad : Bool} {pid : Int}
    (h : disqualify t a ad pid = .ok t') :
    t' = { t with players := dictDelete t.players pid,
                  rounds := t.rounds.map
                    (fun r => { r with games := r.games.map (dqGame pid) }) } := by
  unfold disqualify at h
  by_cases h1 : a ≠ t.host ∧ ad = false
  · rw [if_pos h1] at h; exact absurd h (by simp)
  · rw [if_neg h1] at h
    by_cases h2 : (pyGet t.players pid).isNone
    · rw [if_pos h2] at h; exact absurd h (by simp)
    · rw [if_neg h2] at h
      simp only [Except.ok.injEq] at h
      exact h.symm

theorem end_tournament_ok {t t' : Tournament} {a : Int} {ad : Bool}
    (h : end_tournament t a ad = .ok t') : t' = { t with finished := true } := by
  unfold end_tournament at h
  by_cases h1 : a ≠ t.host ∧ ad = false
  · rw [if_pos h1] at h; exact absurd h (by simp)
  · rw [if_neg h1] at h
    simp only [Except.ok.injEq] at h
    exact h.symm

/- Claim C7: the points table. -/

/-- C7: `get_point_allocation` returns, for every n in {1,2,3,4}, a vector
of length exactly n that is strictly descending and matches the table
points_for(4)=[4,3,2,1], points_for(3)=[4,3,2], points_for(2)=[3,2],
points_for(1)=[2]. -/
theorem C7_point_allocation (n : Nat) (h : n = 1 ∨ n = 2 ∨ n = 3 ∨ n = 4) :
    (get_point_allocation n).length = n ∧
    List.Pairwise (fun a b => b < a) (get_point_allocation n) ∧
    get_point_allocation 4 = [4, 3, 2, 1] ∧ get_point_allocation 3 = [4, 3, 2] ∧
    get_point_allocation 2 = [3, 2] ∧ get_point_allocation 1 = [2] := by
  rcases h with rfl | rfl | rfl | rfl <;> refine ⟨by decide, by decide, rfl, rfl, rfl, rfl⟩

theorem C7_witness :
    ((4 : Nat) = 1 ∨ (4 : Nat) = 2 ∨ (4 : Nat) = 3 ∨ (4 : Nat) = 4) ∧
    ((get_point_allocation 4).length = 4 ∧
      List.Pairwise (fun a b => b < a) (get_point_allocation 4) ∧
      get_point_allocation 4 = [4, 3, 2, 1] ∧ get_point_allocation 3 = [4, 3, 2] ∧
      get_point_allocation 2 = [3, 2] ∧ get_point_allocation 1 = [2]) :=
  ⟨by decide, C7_point_allocation 4 (by decide)⟩

/- Claim C9: standings ordering. -/

def tC9 : Tournament :=
  { id := "t_1", name := "T", host := 0,
    players := [(1, ⟨1, "A", 10, 3⟩), (2, ⟨2, "B", 10, 2⟩), (3, ⟨3, "C", 8, 1⟩)] }

/-- C9: `standings_list` returns the tournament's players sorted by points
descending, then matches_played ascending, then name ascending as the
final deterministic tiebreak (the order `playerKeyLe` spells out exactly
that lexicographic key); on players A(10 pts, 3 matches),
B(10 pts, 2 matches), C(8 pts, 1 match) the output order is B, A, C. -/
theorem C9_standings_sorted (t : Tournament) :
    (standings_list t).Perm (t.players.map Prod.snd) ∧
    List.Sorted playerKeyLe (standings_list t) ∧
    standings_list tC9 = [⟨2, "B", 10, 2⟩, ⟨1, "A", 10, 3⟩, ⟨3, "C", 8, 1⟩] :=
  ⟨List.perm_insertionSort playerKeyLe (t.players.map Prod.snd),
   List.sorted_insertionSort playerKeyLe (t.players.map Prod.snd),
   by decide⟩

/- Claim C2: persistence round-trip. -/

def tC2 : Tournament :=
  { id := "t_1", name := "T", host := 9,
    players := [(1, ⟨1, "a", 3, 1⟩)],
    rounds := [{ number := 1,
                 games := [{ pod_number := 1, players := [1],
                             results_reported := true, results := [(1, 2)] }],
                 active := true, start_time := some 100, notified_timeout := true }] }

/-- C2 fails on the code: `save_all` writes each round as only
`{number, games, active}` and `load_all` rebuilds rounds with the
dataclass defaults, so a round that had `notified_timeout = true` and
`start_time = 100` before saving comes back with `notified_timeout =
false` and `start_time = none`; the reloaded aggregate is not identical
to the saved one. -/
theorem C2_roundtrip_loses_timeout_flag :
    tC2.rounds.map (fun r => (r.notified_timeout, r.start_time)) = [(true, some 100)] ∧
    (load_all (save_all [("t_1", tC2)])).map
        (fun e => e.2.rounds.map (fun r => (r.notified_timeout, r.start_time))) =
      [[(false, none)]] ∧
    load_all (save_all [("t_1", tC2)]) ≠ [("t_1", tC2)] := by decide

/- Claim C1: round completion is detected by report_game but not
   re-evaluated by disqualify. -/

/-- C1 (amended): after every successful `report_game` the affected
(latest) round satisfies `active = false` exactly when all of its pods
have `results_reported = true` — the pod just closed being the last
unreported one is precisely what flips the flag; `disqualify`, however,
never touches any round's `active` flag, so its forced pod closures are
not followed by a re-evaluation of round activity. -/
theorem C1_amended_round_completion :
    (∀ (t t' : Tournament) (pn f s : Int) (th fo : Option Int),
        report_game t pn f s th fo = .ok t' →
        ∃ r', t'.rounds.getLast? = some r' ∧
          (r'.active = false ↔ r'.games.all (·.results_reported) = true)) ∧
    (∀ (t t' : Tournament) (a : Int) (ad : Bool) (pid : Int),
        disqualify t a ad pid = .ok t' →
        t'.rounds.map (·.active) = t.rounds.map (·.active)) := by
  constructor
  · intro t t' pn f s th fo h
    obtain ⟨r, game, hr, ha, hg, hrep, ht'⟩ := report_game_ok h
    subst ht'
    simp only [reportApply]
    refine ⟨_, List.getLast?_concat _, ?_⟩
    by_cases hall : (replaceFirstPod r.games pn
        (reportedGame game ([f, s] ++ th.toList ++ fo.toList))).all
          (·.results_reported) = true
    · rw [if_pos hall]
      exact iff_of_true rfl hall
    · rw [if_neg hall]
      show r.active = false ↔ (replaceFirstPod r.games pn
        (reportedGame game ([f, s] ++ th.toList ++ fo.toList))).all
          (·.results_reported) = true
      rw [ha]
      exact iff_of_false (by simp) hall
  · intro t t' a ad pid h
    rw [disqualify_ok h]
    simp only [List.map_map]
    rfl

def tC1w : Tournament :=
  { id := "t_1", name := "T", host := 9,
    players := [(1, ⟨1, "a", 0, 0⟩), (2, ⟨2, "b", 0, 0⟩)],
    rounds := [{ number := 1, games := [{ pod_number := 1, players := [1, 2] }],
                 active := true, start_time := some 0, notified_timeout := false }] }

/-- C1 fails as stated: disqualifying player 1 from `tC1w` force-closes
its only pod (membership drops to `[2]`), after which every pod of the
round has `results_reported = true`, yet the round's `active` flag is
still `true` — `disqualify` does not re-evaluate the round. -/
theorem C1_counterexample :
    (disqualify tC1w 9 true 1).toOption.map
        (fun t' => t'.rounds.map (fun r => (r.games.all (·.results_reported), r.active))) =
      some [(true, true)] := by decide

def tC1w' : Tournament := (report_game tC1w 1 1 2 none none).toOption.getD tC1w

def tC1d' : Tournament := (disqualify tC1w 9 true 1).toOption.getD tC1w

theorem C1_witness :
    (report_game tC1w 1 1 2 none none = .ok tC1w' ∧
      disqualify tC1w 9 true 1 = .ok tC1d') ∧
    tC1d'.rounds.map (·.active) = tC1w.rounds.map (·.active) :=
  ⟨⟨by decide, by decide⟩,
   C1_amended_round_completion.2 tC1w tC1d' 9 true 1 (by decide)⟩

/- Claim C3: report_game performs no pod-membership validation. -/

theorem pyGet_dictInsert_isSome (m : List (Int × Int)) (k k' v : Int) :
    (pyGet (dictInsert m k' v) k).isSome ↔ ((pyGet m k).isSome ∨ k = k') := by
  induction m with
  | nil =>
      simp only [dictInsert, pyGet]
      by_cases hk : k' = k
      · simp [hk]
      · have h3 : ¬ k = k' := fun h => hk h.symm
        simp [hk, h3]
  | cons e rest ih =>
      obtain ⟨a, b⟩ := e
      simp only [dictInsert]
      by_cases h1 : a = k'
      · rw [if_pos h1]
        simp only [pyGet]
        by_cases h2 : a = k
        · rw [if_pos h2, if_pos h2]
          simp
        · rw [if_neg h2, if_neg h2]
          have h3 : ¬ k = k' := fun hkk => h2 (h1.trans hkk.symm)
          simp [h3]
      · rw [if_neg h1]
        simp only [pyGet]
        by_cases h2 : a = k
        · rw [if_pos h2, if_pos h2]
          simp
        · rw [if_neg h2, if_neg h2]
          exact ih

theorem pyGet_foldl_dictInsert_isSome (l : List (Int × Int)) (m : List (Int × Int)) (k : Int) :
    (pyGet (l.foldl (fun acc kv => dictInsert acc kv.1 kv.2) m) k).isSome ↔
      ((pyGet m k).isSome ∨ k ∈ l.map Prod.fst) := by
  induction l generalizing m with
  | nil => simp
  | cons kv rest ih =>
      simp only [List.foldl_cons, List.map_cons, List.mem_cons]
      rw [ih, pyGet_dictInsert_isSome]
      tauto

theorem points_len_eq (f s : Int) (th fo : Option Int) :
    (get_point_allocation ([f, s] ++ th.toList ++ fo.toList).length).length =
      ([f, s] ++ th.toList ++ fo.toList).length := by
  cases th <;> cases fo <;> rfl

theorem findPod_some_pn {gs : List Game} {pn : Int} {g : Game}
    (h : findPod gs pn = some g) : g.pod_number = pn := by
  induction gs with
  | nil => simp [findPod] at h
  | cons a rest ih =>
      unfold findPod at h
      by_cases ha : a.pod_number = pn
      · rw [if_pos ha] at h
        simp only [Option.some.injEq] at h
        exact h ▸ ha
      · rw [if_neg ha] at h
        exact ih h

theorem findPod_replaceFirstPod {gs : List Game} {pn : Int} {g g' : Game}
    (h : findPod gs pn = some g) (h' : g'.pod_number = pn) :
    findPod (replaceFirstPod gs pn g') pn = some g' := by
  induction gs with
  | nil => simp [findPod] at h
  | cons a rest ih =>
      unfold replaceFirstPod
      by_cases ha : a.pod_number = pn
      · rw [if_pos ha]
        unfold findPod
        rw [if_pos h']
      · rw [if_neg ha]
        unfold findPod
        rw [if_neg ha]
        unfold findPod at h
        rw [if_neg ha] at h
        exact ih h

theorem awardPoints_map_fst (ps : List (Int × Player)) (pid pts : Int) :
    (awardPoints ps pid pts).map Prod.fst = ps.map Prod.fst := by
  induction ps with
  | nil => rfl
  | cons e rest ih =>
      obtain ⟨k, p⟩ := e
      by_cases hk : k = pid <;> simp [awardPoints, hk, ih]

theorem foldl_awardPoints_map_fst (l : List (Int × Int)) (ps : List (Int × Player)) :
    ((l.foldl (fun acc kv => awardPoints acc kv.1 kv.2) ps).map Prod.fst) =
      ps.map Prod.fst := by
  induction l generalizing ps with
  | nil => rfl
  | cons kv rest ih => rw [List.foldl_cons, ih, awardPoints_map_fst]

/-- C3 (amended): `report_game` performs no membership validation at all —
after a successful call the updated pod's `results` mapping has exactly
the reported identifiers as keys, whether or not they were members of the
pod, and the set of registered players is unchanged (points can only land
on identifiers that happen to be registered). -/
theorem C3_amended_results_keys (t t' : Tournament) (pn f s : Int) (th fo : Option Int)
    (h : report_game t pn f s th fo = .ok t') :
    (∃ r' g', t'.rounds.getLast? = some r' ∧ findPod r'.games pn = some g' ∧
      ∀ k, ((pyGet g'.results k).isSome ↔ k ∈ [f, s] ++ th.toList ++ fo.toList)) ∧
    t'.players.map Prod.fst = t.players.map Prod.fst := by
  obtain ⟨r, game, hr, ha, hg, hrep, ht'⟩ := report_game_ok h
  subst ht'
  have hpn : (reportedGame game ([f, s] ++ th.toList ++ fo.toList)).pod_number = pn :=
    findPod_some_pn (g := game) hg
  constructor
  · simp only [reportApply]
    refine ⟨_, reportedGame game ([f, s] ++ th.toList ++ fo.toList),
      List.getLast?_concat _, findPod_replaceFirstPod hg hpn, ?_⟩
    intro k
    simp only [reportedGame]
    rw [pyGet_foldl_dictInsert_isSome]
    rw [List.map_fst_zip _ _ (le_of_eq (points_len_eq f s th fo).symm)]
    simp [pyGet]
  · simp only [reportApply]
    exact foldl_awardPoints_map_fst _ _

def tC3w : Tournament :=
  { id := "t_1", name := "T", host := 9,
    players := [(1, ⟨1, "a", 0, 0⟩), (2, ⟨2, "b", 0, 0⟩)],
    rounds := [{ number := 1, games := [{ pod_number := 1, players := [1, 2] }],
                 active := true, start_time := some 0, notified_timeout := false }] }

/-- C3 fails as stated: pod 1 of `tC3w` has members `[1, 2]`, yet a report
naming the complete strangers 5 and 6 is accepted and stores exactly
`{5: 3, 6: 2}` in the pod's `results`. -/
theorem C3_counterexample :
    (report_game tC3w 1 5 6 none none).toOption.map
        (fun t' => t'.rounds.map (fun r => r.games.map (·.results))) =
      some [[[(5, 3), (6, 2)]]] ∧
    ((5 : Int) ∉ [(1 : Int), 2] ∧ (6 : Int) ∉ [(1 : Int), 2]) ∧
    tC3w.rounds.map (fun r => r.games.map (·.players)) = [[[1, 2]]] := by decide

def tC3w' : Tournament := (report_game tC3w 1 5 6 none none).toOption.getD tC3w

theorem C3_witness :
    (report_game tC3w 1 5 6 none none = .ok tC3w') ∧
    tC3w'.players.map Prod.fst = tC3w.players.map Prod.fst :=
  ⟨by decide, (C3_amended_results_keys tC3w tC3w' 1 5 6 none none (by decide)).2⟩

/- Claim C4: double reporting. -/

/-- C4 (amended): when the latest round's pod `pn` already has
`results_reported = true`, a second `report_game` call on it fails — with
the already-reported error when the round is still active, and with the
round-ended error when the round has already closed (e.g. after the last
pod of the round reported) — and in either case the failed call leaves
the tournament state unchanged. -/
theorem C4_amended_double_report (t : Tournament) (r : Round) (g : Game)
    (pn f s : Int) (th fo : Option Int)
    (hr : t.rounds.getLast? = some r) (hg : findPod r.games pn = some g)
    (hrep : g.results_reported = true) :
    (r.active = true → report_game t pn f s th fo = .error .alreadyReported) ∧
    (r.active = false → report_game t pn f s th fo = .error .roundEnded) ∧
    applyOp t (.report pn f s th fo) = t := by
  have h1 : r.active = true → report_game t pn f s th fo = .error .alreadyReported := by
    intro ha
    simp [report_game, hr, hg, ha, hrep]
  have h2 : r.active = false → report_game t pn f s th fo = .error .roundEnded := by
    intro ha
    simp [report_game, hr, ha]
  refine ⟨h1, h2, ?_⟩
  show (match report_game t pn f s th fo with
        | .ok t' => t'
        | .error _ => t) = t
  cases hb : r.active with
  | false => rw [h2 hb]
  | true => rw [h1 hb]

def gC4 : Game :=
  { pod_number := 1, players := [1, 2], results_reported := true,
    results := [(1, 3), (2, 2)] }

def rC4 : Round :=
  { number := 1, games := [gC4, { pod_number := 2, players := [3, 4] }],
    active := true, start_time := some 0, notified_timeout := false }

def tC4a : Tournament :=
  { id := "t_1", name := "T", host := 9,
    players := [(1, ⟨1, "a", 3, 1⟩), (2, ⟨2, "b", 2, 1⟩),
                (3, ⟨3, "c", 0, 0⟩), (4, ⟨4, "d", 0, 0⟩)],
    rounds := [rC4] }

theorem C4_witness :
    (tC4a.rounds.getLast? = some rC4 ∧ findPod rC4.games 1 = some gC4 ∧
      gC4.results_reported = true ∧ rC4.active = true) ∧
    report_game tC4a 1 1 2 none none = .error .alreadyReported :=
  ⟨by decide,
   (C4_amended_double_report tC4a rC4 gC4 1 1 2 none none
      (by decide) (by decide) (by decide)).1 (by decide)⟩

def tC4w : Tournament :=
  { id := "t_1", name := "T", host := 9,
    players := [(1, ⟨1, "a", 3, 1⟩), (2, ⟨2, "b", 2, 1⟩)],
    rounds := [{ number := 1,
                 games := [{ pod_number := 1, players := [1, 2],
                             results_reported := true, results := [(1, 3), (2, 2)] }],
                 active := false, start_time := some 0, notified_timeout := false }] }

/-- C4 fails as stated: in `tC4w` the single pod of the round is already
reported (which is exactly why the round closed), and the second report
on that pod fails with the round-ended error, not the already-reported
error the claim names. -/
theorem C4_counterexample :
    report_game tC4w 1 1 2 none none = .error .roundEnded ∧
    tC4w.rounds.map (fun r => r.games.map (·.results_reported)) = [[true]] := by decide

/- Claim C6: the frame and effect of disqualify. -/

theorem pyGet_eq_none_iff {β : Type} (ps : List (Int × β)) (k : Int) :
    pyGet ps k = none ↔ k ∉ ps.map Prod.fst := by
  induction ps with
  | nil => simp [pyGet]
  | cons e rest ih =>
      obtain ⟨a, b⟩ := e
      simp only [pyGet, List.map_cons, List.mem_cons]
      by_cases ha : a = k
      · simp [ha]
      · have hka : ¬ k = a := fun hh => ha hh.symm
        rw [if_neg ha]
        simp [hka, ih]

theorem map_fst_dictDelete {β : Type} (ps : List (Int × β)) (pid : Int) :
    (dictDelete ps pid).map Prod.fst = (ps.map Prod.fst).erase pid := by
  induction ps with
  | nil => rfl
  | cons e rest ih =>
      obtain ⟨a, b⟩ := e
      by_cases ha : a = pid
      · simp [dictDelete, List.erase_cons, ha]
      · simp [dictDelete, List.erase_cons, ha, ih]

theorem pyGet_dictDelete_self {β : Type} (ps : List (Int × β)) (pid : Int)
    (h : (ps.map Prod.fst).count pid ≤ 1) : pyGet (dictDelete ps pid) pid = none := by
  rw [pyGet_eq_none_iff, map_fst_dictDelete]
  intro hmem
  have h1 := List.count_erase_self pid (ps.map Prod.fst)
  have h2 : 0 < ((ps.map Prod.fst).erase pid).count pid := List.count_pos_iff.mpr hmem
  omega

theorem pyGet_dictDelete_ne {β : Type} (ps : List (Int × β)) (pid q : Int)
    (h : q ≠ pid) : pyGet (dictDelete ps pid) q = pyGet ps q := by
  induction ps with
  | nil => rfl
  | cons e rest ih =>
      obtain ⟨a, b⟩ := e
      by_cases ha : a = pid
      · have haq : ¬ a = q := fun hq => h (hq.symm.trans ha)
        simp only [dictDelete, pyGet]
        rw [if_pos ha, if_neg haq]
      · simp [dictDelete, ha, pyGet, ih]

theorem forall₂_map_self {α β : Type} (P : α → β → Prop) (f : α → β) (l : List α)
    (h : ∀ x ∈ l, P x (f x)) : List.Forall₂ P l (l.map f) := by
  induction l with
  | nil => exact List.Forall₂.nil
  | cons a rest ih =>
      exact List.Forall₂.cons (h a (List.mem_cons_self a rest))
        (ih fun x hx => h x (List.mem_cons_of_mem a hx))

theorem dqGame_spec (pid : Int) (g : Game) (hone : g.players.count pid ≤ 1) :
    pid ∉ (dqGame pid g).players ∧
    (∀ q, q ≠ pid → (dqGame pid g).players.count q = g.players.count q) ∧
    (dqGame pid g).results = g.results ∧
    (dqGame pid g).pod_number = g.pod_number ∧
    ((dqGame pid g).results_reported = true ↔
      (g.results_reported = true ∨
        (pid ∈ g.players ∧ (g.players.erase pid).length < 2))) := by
  unfold dqGame
  by_cases hmem : pid ∈ g.players
  · rw [if_pos hmem]
    refine ⟨?_, ?_, rfl, rfl, ?_⟩
    · intro hc
      have h1 := List.count_erase_self pid g.players
      have h2 : 0 < (g.players.erase pid).count pid := List.count_pos_iff.mpr hc
      have h3 : 0 < g.players.count pid := List.count_pos_iff.mpr hmem
      omega
    · intro q hq
      exact List.count_erase_of_ne hq g.players
    · by_cases hcond : (g.players.erase pid).length < 2 ∧ g.results_reported = false
      · rw [if_pos hcond]
        exact ⟨fun _ => Or.inr ⟨hmem, hcond.1⟩, fun _ => rfl⟩
      · rw [if_neg hcond]
        constructor
        · exact fun hrep => Or.inl hrep
        · intro hor
          rcases hor with hrep | ⟨_, hlen⟩
          · exact hrep
          · by_cases hrep : g.results_reported = false
            · exact absurd ⟨hlen, hrep⟩ hcond
            · simpa using hrep
  · rw [if_neg hmem]
    refine ⟨hmem, fun q _ => rfl, rfl, rfl, ?_⟩
    constructor
    · exact fun hrep => Or.inl hrep
    · intro hor
      rcases hor with hrep | ⟨hmem', _⟩
      · exact hrep
      · exact absurd hmem' hmem

/-- C6: `disqualify` on a registered player removes exactly that player
from the players mapping (the key list loses exactly the `pid` entry,
every other player's stored record — points and matches included — is
untouched) and from every pod's membership list across all rounds; every
pod's existing `results` mapping, pod number, and every round's number
and `active` flag are unchanged, and a pod that contained the player and
whose membership thereby drops below 2 without having reported gets
`results_reported = true` — with no points awarded anywhere, since no
remaining player's record changes.  (The two count hypotheses hold in
every reachable state: dict keys are unique and pods are built by
partitioning the key list.) -/
theorem C6_disqualify_effect (t t' : Tournament) (a : Int) (ad : Bool) (pid : Int)
    (h : disqualify t a ad pid = .ok t')
    (hone : (t.players.map Prod.fst).count pid ≤ 1)
    (hgone : ∀ r ∈ t.rounds, ∀ g ∈ r.games, g.players.count pid ≤ 1) :
    pyGet t'.players pid = none ∧
    t'.players.map Prod.fst = (t.players.map Prod.fst).erase pid ∧
    (∀ q, q ≠ pid → pyGet t'.players q = pyGet t.players q) ∧
    List.Forall₂ (fun r r' =>
        r'.number = r.number ∧ r'.active = r.active ∧
        List.Forall₂ (fun g g' =>
            pid ∉ g'.players ∧
            (∀ q, q ≠ pid → g'.players.count q = g.players.count q) ∧
            g'.results = g.results ∧
            g'.pod_number = g.pod_number ∧
            (g'.results_reported = true ↔
              (g.results_reported = true ∨
                (pid ∈ g.players ∧ (g.players.erase pid).length < 2))))
          r.games r'.games)
      t.rounds t'.rounds := by
  rw [disqualify_ok h]
  refine ⟨pyGet_dictDelete_self _ _ hone, map_fst_dictDelete _ _,
    fun q hq => pyGet_dictDelete_ne _ _ _ hq, ?_⟩
  apply forall₂_map_self
  intro r hr
  refine ⟨rfl, rfl, ?_⟩
  apply forall₂_map_self
  intro g hgm
  exact dqGame_spec pid g (hgone r hr g hgm)

def tC6 : Tournament :=
  { id := "t_1", name := "T", host := 9,
    players := [(1, ⟨1, "a", 4, 1⟩), (2, ⟨2, "b", 3, 1⟩), (3, ⟨3, "c", 2, 1⟩)],
    rounds := [{ number := 1,
                 games := [{ pod_number := 1, players := [1, 2] },
                           { pod_number := 2, players := [3],
                             results_reported := true, results := [(3, 2)] }],
                 active := true, start_time := some 0, notified_timeout := false }] }

def tC6' : Tournament := (disqualify tC6 9 true 1).toOption.getD tC6

theorem C6_witness :
    (disqualify tC6 9 true 1 = .ok tC6' ∧
      (tC6.players.map Prod.fst).count 1 ≤ 1 ∧
      ∀ r ∈ tC6.rounds, ∀ g ∈ r.games, g.players.count 1 ≤ 1) ∧
    pyGet tC6'.players 1 = none :=
  ⟨⟨by decide, by decide, by decide⟩,
   (C6_disqualify_effect tC6 tC6' 9 true 1 (by decide) (by decide) (by decide)).1⟩

/- Claims C8 and C10: behaviour of the make_pods loop. -/

theorem makePodsLoop_spec (p : Int) (hp : 1 ≤ p) :
    ∀ (fuel : Nat) (players : List Int) (n : Int) (pods : List Game),
      players.length ≤ fuel →
      ∃ rest : List Game,
        makePodsLoop fuel players p n pods = some (pods ++ rest) ∧
        (rest.map Game.players).flatten = players ∧
        (players = [] → rest = []) ∧
        (∀ i (hi : i + 1 < rest.length),
            (rest.get ⟨i, Nat.lt_of_succ_lt hi⟩).players.length = p.toNat) ∧
        (∀ hne : rest ≠ [],
            1 ≤ (rest.getLast hne).players.length ∧
            (rest.getLast hne).players.length ≤ p.toNat) ∧
        (∀ i (hi : i < rest.length), (rest.get ⟨i, hi⟩).pod_number = n + i) := by
  intro fuel
  induction fuel with
  | zero =>
      intro players n pods hlen
      have hnil : players = [] := List.length_eq_zero.mp (Nat.le_zero.mp hlen)
      subst hnil
      refine ⟨[], by simp [makePodsLoop], rfl, fun _ => rfl, ?_, ?_, ?_⟩
      · intro i hi; simp at hi
      · intro hne; exact absurd rfl hne
      · intro i hi; simp at hi
  | succ fuel ih =>
      intro players n pods hlen
      cases players with
      | nil =>
          refine ⟨[], by simp [makePodsLoop], rfl, fun _ => rfl, ?_, ?_, ?_⟩
          · intro i hi; simp at hi
          · intro hne; exact absurd rfl hne
          · intro i hi; simp at hi
      | cons a as =>
          have hp0 : (0 : Int) ≤ p := le_trans (by norm_num) hp
          have hpt : 1 ≤ p.toNat := by omega
          have hd : pyDrop (a :: as) p = (a :: as).drop p.toNat := by
            unfold pyDrop; rw [if_pos hp0]
          have ht : pyTake (a :: as) p = (a :: as).take p.toNat := by
            unfold pyTake; rw [if_pos hp0]
          have hlen' : (pyDrop (a :: as) p).length ≤ fuel := by
            rw [hd, List.length_drop]
            have hc : (a :: as).length = as.length + 1 := List.length_cons a as
            omega
          obtain ⟨rest', heq, hflat, hnil', hsz, hlast, hnum⟩ :=
            ih (pyDrop (a :: as) p) (n + 1)
              (pods ++ [{ pod_number := n, players := pyTake (a :: as) p }]) hlen'
          refine ⟨{ pod_number := n, players := pyTake (a :: as) p } :: rest',
            ?_, ?_, ?_, ?_, ?_, ?_⟩
          · have hstep : makePodsLoop (fuel + 1) (a :: as) p n pods =
                makePodsLoop fuel (pyDrop (a :: as) p) p (n + 1)
                  (pods ++ [{ pod_number := n, players := pyTake (a :: as) p }]) := rfl
            rw [hstep, heq, List.append_assoc]
            rfl
          · simp only [List.map_cons, List.flatten_cons, hflat, hd, ht]
            exact List.take_append_drop p.toNat (a :: as)
          · intro hcon; exact absurd hcon (by simp)
          · intro i hi
            cases i with
            | zero =>
                have hne' : rest' ≠ [] := by
                  intro hr0; rw [hr0] at hi; simp at hi
                have hdne : pyDrop (a :: as) p ≠ [] := fun hdn => hne' (hnil' hdn)
                have hlt : p.toNat < (a :: as).length := by
                  by_contra hge
                  apply hdne
                  rw [hd]
                  exact List.drop_eq_nil_of_le (by omega)
                show (pyTake (a :: as) p).length = p.toNat
                rw [ht, List.length_take]
                omega
            | succ j =>
                have hj : j + 1 < rest'.length := by simpa using hi
                exact hsz j hj
          · intro hne
            by_cases h0 : rest' = []
            · subst h0
              have hgl : ([{ pod_number := n, players := pyTake (a :: as) p }] :
                  List Game).getLast hne = { pod_number := n, players := pyTake (a :: as) p } :=
                rfl
              rw [hgl]
              have hlc : (a :: as).length = as.length + 1 := List.length_cons a as
              rw [ht, List.length_take]
              omega
            · rw [List.getLast_cons h0]
              exact hlast h0
          · intro i hi
            cases i with
            | zero => simp
            | succ j =>
                have hj : j < rest'.length := by simpa using hi
                have hjn := hnum j hj
                show (rest'.get ⟨j, hj⟩).pod_number = n + (j + 1 : Nat)
                rw [hjn]
                push_cast
                ring

theorem pyDrop_ne_nil {α : Type} (l : List α) (p : Int) (hp : p ≤ 0) (hl : l ≠ []) :
    pyDrop l p ≠ [] := by
  have hlen : 0 < l.length := List.length_pos.mpr hl
  rcases eq_or_lt_of_le hp with h0 | hneg
  · subst h0
    unfold pyDrop
    simpa using hl
  · unfold pyDrop
    rw [if_neg (by omega)]
    intro hcon
    have hlc := congrArg List.length hcon
    rw [List.length_drop] at hlc
    simp only [List.length_nil] at hlc
    have h1 : 1 ≤ (-p).toNat := by omega
    omega

theorem makePodsLoop_diverges (p : Int) (hp : p ≤ 0) :
    ∀ (fuel : Nat) (players : List Int) (n : Int) (pods : List Game),
      players ≠ [] → makePodsLoop fuel players p n pods = none := by
  intro fuel
  induction fuel with
  | zero =>
      intro players n pods hne
      cases players with
      | nil => exact absurd rfl hne
      | cons a as => rfl
  | succ fuel ih =>
      intro players n pods hne
      cases players with
      | nil => exact absurd rfl hne
      | cons a as =>
          exact ih (pyDrop (a :: as) p) (n + 1)
            (pods ++ [{ pod_number := n, players := pyTake (a :: as) p }])
            (pyDrop_ne_nil (a :: as) p hp (by simp))

theorem countP_of_sum_one (l : List (List Int)) (pid : Int)
    (h : (l.map (List.count pid)).sum = 1) :
    l.countP (fun m => decide (pid ∈ m)) = 1 := by
  induction l with
  | nil => simp at h
  | cons m rest ih =>
      simp only [List.map_cons, List.sum_cons] at h
      by_cases hm : pid ∈ m
      · have hc : 0 < m.count pid := List.count_pos_iff.mpr hm
        have hrest0 : (rest.map (List.count pid)).sum = 0 := by omega
        have hcr : rest.countP (fun m => decide (pid ∈ m)) = 0 := by
          rw [List.countP_eq_zero]
          intro x hx
          simp only [decide_eq_true_eq]
          intro hmem
          have hxc : 0 < x.count pid := List.count_pos_iff.mpr hmem
          have hx0 : x.count pid = 0 :=
            (List.sum_eq_zero_iff.mp hrest0) (x.count pid)
              (List.mem_map_of_mem _ hx)
          omega
        rw [List.countP_cons_of_pos _ _ (by simpa using hm), hcr]
      · have h0 : m.count pid = 0 := List.count_eq_zero.mpr hm
        rw [h0] at h
        simp only [Nat.zero_add] at h
        rw [List.countP_cons_of_neg _ _ (by simpa using hm)]
        exact ih h

def tC8 : Tournament :=
  { id := "t_1", name := "T", host := 9,
    players := [(1, ⟨1, "p1", 0, 0⟩), (2, ⟨2, "p2", 0, 0⟩), (3, ⟨3, "p3", 0, 0⟩),
                (4, ⟨4, "p4", 0, 0⟩), (5, ⟨5, "p5", 0, 0⟩), (6, ⟨6, "p6", 0, 0⟩),
                (7, ⟨7, "p7", 0, 0⟩), (8, ⟨8, "p8", 0, 0⟩), (9, ⟨9, "p9", 0, 0⟩)],
    pod_size := 4 }

/-- C8: for `pod_size ≥ 1` and any permutation `shuffled` of the
registered player identifiers, `make_pods` terminates (within one step of
budget per player) and returns pods whose membership lists concatenate to
exactly the shuffled list — a permutation of the registered players, each
appearing in exactly one pod when the identifiers are distinct — with
every pod of size `pod_size` except possibly the last, which has between
1 and `pod_size` members, and pod numbers assigned sequentially 1, 2, ...
in chunk order; 9 players with `pod_size = 4` give pods of sizes 4, 4, 1
numbered 1, 2, 3. -/
theorem C8_make_pods_partition (t : Tournament) (shuffled : List Int)
    (hperm : shuffled.Perm (t.players.map Prod.fst)) (hp : 1 ≤ t.pod_size)
    (hnd : (t.players.map Prod.fst).Nodup) :
    ∃ pods, make_pods (shuffled.length + 1) shuffled t.pod_size = some pods ∧
      (pods.map Game.players).flatten = shuffled ∧
      ((pods.map Game.players).flatten).Perm (t.players.map Prod.fst) ∧
      (∀ pid ∈ t.players.map Prod.fst,
          pods.countP (fun g => decide (pid ∈ g.players)) = 1) ∧
      (∀ i (hi : i + 1 < pods.length),
          (pods.get ⟨i, Nat.lt_of_succ_lt hi⟩).players.length = t.pod_size.toNat) ∧
      (∀ hne : pods ≠ [],
          1 ≤ (pods.getLast hne).players.length ∧
          (pods.getLast hne).players.length ≤ t.pod_size.toNat) ∧
      (∀ i (hi : i < pods.length), (pods.get ⟨i, hi⟩).pod_number = 1 + i) ∧
      (make_pods 10 [1, 2, 3, 4, 5, 6, 7, 8, 9] 4).map
          (fun pods => pods.map (fun g => (g.pod_number, g.players.length))) =
        some [(1, 4), (2, 4), (3, 1)] := by
  obtain ⟨pods, heq, hflat, -, hsz, hlast, hnum⟩ :=
    makePodsLoop_spec t.pod_size hp (shuffled.length + 1) shuffled 1 [] (by omega)
  refine ⟨pods, by simpa using heq, hflat, hflat ▸ hperm, ?_, hsz, hlast, hnum, by decide⟩
  intro pid hpid
  have h1 : shuffled.count pid = 1 := by
    rw [hperm.count_eq]
    exact List.count_eq_one_of_mem hnd hpid
  have h2 : ((pods.map Game.players).map (List.count pid)).sum = 1 := by
    rw [← List.count_flatten, hflat]
    exact h1
  have h3 := countP_of_sum_one (pods.map Game.players) pid h2
  rw [List.countP_map] at h3
  exact h3

theorem C8_witness :
    ((([1, 2, 3, 4, 5, 6, 7, 8, 9] : List Int).Perm (tC8.players.map Prod.fst)) ∧
      (1 : Int) ≤ tC8.pod_size ∧ (tC8.players.map Prod.fst).Nodup) ∧
    (make_pods 10 [1, 2, 3, 4, 5, 6, 7, 8, 9] 4).map
        (fun pods => pods.map (fun g => (g.pod_number, g.players.length))) =
      some [(1, 4), (2, 4), (3, 1)] :=
  ⟨⟨by decide, by decide, by decide⟩, by
    obtain ⟨pods, -, -, -, -, -, -, -, hconc⟩ :=
      C8_make_pods_partition tC8 [1, 2, 3, 4, 5, 6, 7, 8, 9]
        (by decide) (by decide) (by decide)
    exact hconc⟩

/-- C10 (amended): `make_pods` terminates only under `pod_size ≥ 1`: for
`pod_size ≤ 0` and a nonempty player list the loop never returns within
any step budget, because the loop body never empties the player list
(with `pod_size = 0` it removes no players at all; with `pod_size < 0` it
can remove players but always keeps at least one), and the precondition
is not enforced at the public interface — `create_tournament` stores any
integer `pod_size` without validation. -/
theorem C10_amended_termination (players : List Int) (p : Int)
    (tid tname : String) (host mr tl : Int) :
    (p ≤ 0 → players ≠ [] →
      (∀ fuel, make_pods fuel players p = none) ∧
      pyDrop players p ≠ [] ∧
      (p = 0 → pyDrop players p = players)) ∧
    (1 ≤ p → ∃ pods, make_pods (players.length + 1) players p = some pods) ∧
    (create_tournament tid tname host p mr tl).pod_size = p := by
  refine ⟨fun hp hne => ⟨fun fuel => makePodsLoop_diverges p hp fuel players 1 [] hne,
      pyDrop_ne_nil players p hp hne, fun h0 => ?_⟩, fun hp => ?_, rfl⟩
  · subst h0
    unfold pyDrop
    simp
  · obtain ⟨pods, heq, -⟩ :=
      makePodsLoop_spec p hp (players.length + 1) players 1 [] (by omega)
    exact ⟨pods, by simpa using heq⟩

/-- C10 fails only in its mechanism clause: with `pod_size = -1` and
players `[1, 2, 3]`, the first loop iteration replaces the player list
by `players[-1:] = [3]` — the loop does remove players — while the call
still diverges (no step budget suffices). -/
theorem C10_counterexample :
    pyDrop ([1, 2, 3] : List Int) (-1) = [3] ∧ ([3] : List Int) ≠ [1, 2, 3] ∧
    pyTake ([1, 2, 3] : List Int) (-1) = [1, 2] ∧
    make_pods 5 [1, 2, 3] (-1) = none := by decide

theorem C10_witness :
    ((0 : Int) ≤ 0 ∧ ([1] : List Int) ≠ []) ∧
    (make_pods 3 [1] 0 = none ∧ pyDrop ([1] : List Int) 0 = [1]) :=
  ⟨⟨le_refl 0, by decide⟩, by
    obtain ⟨hdiv, -, heq0⟩ :=
      (C10_amended_termination [1] 0 "t" "T" 9 4 90).1 (le_refl 0) (by decide)
    exact ⟨hdiv 3, heq0 rfl⟩⟩

/- Claim C5: at most one active round, over all reachable states. -/

theorem rounds_eq_dropLast_concat {α : Type} {l : List α} {r : α}
    (h : l.getLast? = some r) : l = l.dropLast ++ [r] := by
  have hne : l ≠ [] := by intro e; subst e; simp at h
  have h2 := List.dropLast_append_getLast hne
  rw [List.getLast?_eq_getLast l hne] at h
  simp only [Option.some.injEq] at h
  rw [h] at h2
  exact h2.symm

theorem sweepRound_active (tl : Int) (now : Rat) (r : Round) :
    (sweepRound tl now r).active = r.active := by
  unfold sweepRound
  split
  · rfl
  · split
    · rfl
    · rfl

theorem countP_active_singleton (x : Round) : List.countP (·.active) [x] ≤ 1 := by
  simp only [List.countP_cons, List.countP_nil, Nat.zero_add]
  split <;> omega

theorem activeCount_applyOp_le (t : Tournament) (o : Op) (h : activeCount t ≤ 1) :
    activeCount (applyOp t o) ≤ 1 := by
  cases hres : stepExcept t o with
  | error e =>
      have happ : applyOp t o = t := by unfold applyOp; rw [hres]
      rw [happ]; exact h
  | ok t' =>
      have happ : applyOp t o = t' := by unfold applyOp; rw [hres]
      rw [happ]
      cases o with
      | register pid u =>
          have hok : register t pid u = .ok t' := hres
          rw [register_ok hok]
          exact h
      | startRound sh now =>
          have hok : start_round t sh now = .ok t' := hres
          obtain ⟨h1, h2, h3, pods, hmp, ht'⟩ := start_round_ok hok
          rw [ht']
          show List.countP (fun r => r.active) (t.rounds ++
            [{ number := (t.rounds.length : Int) + 1, games := pods, active := true,
               start_time := some now, notified_timeout := false }]) ≤ 1
          rw [List.countP_append]
          have hz : t.rounds.countP (·.active) = 0 := by
            rw [List.countP_eq_zero]
            intro r hr
            simp only [List.any_eq_false] at h3
            simpa using h3 r hr
          simp [hz, List.countP_cons]
      | report pn f s th fo =>
          have hok : report_game t pn f s th fo = .ok t' := hres
          obtain ⟨r, game, hr, ha, hg, hrep, ht'⟩ := report_game_ok hok
          rw [ht']
          simp only [reportApply, activeCount]
          rw [List.countP_append]
          have hsplit : t.rounds = t.rounds.dropLast ++ [r] := rounds_eq_dropLast_concat hr
          unfold activeCount at h
          have hcount : t.rounds.countP (·.active) =
              t.rounds.dropLast.countP (·.active) + 1 := by
            conv_lhs => rw [hsplit]
            rw [List.countP_append]
            simp [List.countP_cons, ha]
          have hdl : t.rounds.dropLast.countP (·.active) = 0 := by omega
          have hone := countP_active_singleton
            { r with
              games := replaceFirstPod r.games pn
                (reportedGame game ([f, s] ++ th.toList ++ fo.toList)),
              active := if (replaceFirstPod r.games pn
                  (reportedGame game ([f, s] ++ th.toList ++ fo.toList))).all
                    (·.results_reported) then false else r.active }
          omega
      | dq a ad pid =>
          have hok : disqualify t a ad pid = .ok t' := hres
          rw [disqualify_ok hok]
          show List.countP (fun r => r.active)
            (t.rounds.map (fun r => ({ r with games := r.games.map (dqGame pid) } : Round))) ≤ 1
          rw [List.countP_map]
          exact h
      | endT a ad =>
          have hok : end_tournament t a ad = .ok t' := hres
          rw [end_tournament_ok hok]
          exact h
      | watchdog now =>
          have hok : Except.ok (watchdog_sweep t now) = Except.ok t' := hres
          simp only [Except.ok.injEq] at hok
          rw [← hok]
          show List.countP (fun r => r.active)
            (t.rounds.map (sweepRound t.time_limit now)) ≤ 1
          rw [List.countP_map]
          have hco : t.rounds.countP ((fun r => r.active) ∘ sweepRound t.time_limit now) =
              t.rounds.countP (·.active) :=
            List.countP_congr (fun r _ => by
              simp [Function.comp, sweepRound_active])
          rw [hco]
          exact h

theorem activeCount_runOps_le (t : Tournament) (ops : List Op) (h : activeCount t ≤ 1) :
    activeCount (runOps t ops) ≤ 1 := by
  induction ops generalizing t with
  | nil => exact h
  | cons o rest ih => exact ih (applyOp t o) (activeCount_applyOp_le t o h)

/-- C5: starting from `create_tournament` (which has no rounds), every
state reachable by any sequence of register / start_round / report_game /
disqualify / end_tournament / watchdog-sweep operations has at most one
round with `active = true`; `start_round` never succeeds while some round
is still active (when the earlier guards pass, the rejection is exactly
the round-already-active error), and on success the newly appended round
is the only active one and sits at the end of the list. -/
theorem C5_at_most_one_active (tid tname : String) (host : Int) (ps mr tl : Int)
    (ops : List Op) (t t' : Tournament) (sh : List Int) (now : Rat) :
    activeCount (runOps (create_tournament tid tname host ps mr tl) ops) ≤ 1 ∧
    (t.rounds.any (·.active) = true → ∀ u, start_round t sh now ≠ .ok u) ∧
    (t.finished = false → ¬ t.players.length < 2 → t.rounds.any (·.active) = true →
      start_round t sh now = .error .roundActive) ∧
    (start_round t sh now = .ok t' →
      activeCount t' = 1 ∧ t'.rounds.getLast?.map (·.active) = some true) := by
  refine ⟨?_, ?_, ?_, ?_⟩
  · exact activeCount_runOps_le _ ops (by simp [activeCount, create_tournament])
  · intro hact u hok
    obtain ⟨-, -, h3, -⟩ := start_round_ok hok
    rw [hact] at h3
    simp at h3
  · intro h1 h2 hact
    unfold start_round
    rw [if_neg (by simp [h1]), if_neg h2, if_pos hact]
  · intro hok
    obtain ⟨h1, h2, h3, pods, hmp, ht'⟩ := start_round_ok hok
    rw [ht']
    constructor
    · show List.countP (fun r => r.active) (t.rounds ++
        [({ number := (t.rounds.length : Int) + 1, games := pods, active := true,
            start_time := some now, notified_timeout := false } : Round)]) = 1
      rw [List.countP_append]
      have hz : t.rounds.countP (·.active) = 0 := by
        rw [List.countP_eq_zero]
        intro r hr
        simp only [List.any_eq_false] at h3
        simpa using h3 r hr
      simp [hz, List.countP_cons]
    · show ((t.rounds ++
        [({ number := (t.rounds.length : Int) + 1, games := pods, active := true,
            start_time := some now, notified_timeout := false } : Round)]).getLast?).map
          (fun r => r.active) = some true
      rw [List.getLast?_concat]
      rfl

def tC5 : Tournament :=
  { id := "t_1", name := "T", host := 9,
    players := [(1, ⟨1, "a", 0, 0⟩), (2, ⟨2, "b", 0, 0⟩)],
    rounds := [{ number := 1, games := [{ pod_number := 1, players := [1, 2] }],
                 active := true, start_time := some 0, notified_timeout := false }] }

theorem C5_witness :
    (tC5.finished = false ∧ ¬ tC5.players.length < 2 ∧
      tC5.rounds.any (·.active) = true) ∧
    start_round tC5 [1, 2] 0 = .error .roundActive :=
  ⟨⟨rfl, by decide, rfl⟩,
   (C5_at_most_one_active "t" "T" 9 4 4 90 [] tC5 tC5 [1, 2] 0).2.2.1
     rfl (by decide) rfl⟩

end GuacBot
